import Mathlib

/-!
Shallow embedding of the Boffo Google-Sheets add-on (caltechlibrary/boffo)
FOLIO query engine, translated from the JavaScript sources `Code.js` and the
companion main script file.  FOLIO server responses are modelled as oracle
functions passed to each operation; Google Apps Script UI and spreadsheet
calls are out of scope.  JavaScript strings are modelled as `String` where
they are opaque keys, and as `List Char` where character-level processing
(regular expressions) occurs.  `quit(...)`, which throws, is modelled with
`Except BoffoError`.
-/

set_option linter.unusedVariables false
set_option maxRecDepth 20000

namespace Boffo

/-- A FOLIO inventory item record, reduced to the fields the verified claims
touch.  In the source an item is a JSON object; `id = none` models the absence
of the `id` key (the marker used to distinguish a real record from the
barcode-only placeholder `{'barcode': barcode}`), and an absent
`effectiveShelvingOrder` key is modelled as the empty string, which is falsy
in JavaScript exactly like `undefined`. -/
structure Item where
  barcode : String
  id : Option String
  effectiveShelvingOrder : String
deriving DecidableEq, Inhabited, Repr

/-- The barcode-only placeholder object `{'barcode': barcode}` built by
`itemRecords` for a requested barcode missing from the response. -/
def placeholderRecord (barcode : String) : Item :=
  { barcode := barcode, id := none, effectiveShelvingOrder := "" }

/-- Errors raised through `quit(why, details)`, which throws a custom
exception and aborts the operation.  Constructors carry the data that the
corresponding messages interpolate. -/
inductive BoffoError where
  | noSuchRange (firstCN lastCN : String)
  | noShelvingOrder (cn : String)
  | capacityExceeded
  | incompleteRecordSet
  | callNumberNotFound (cn : String)
  | invalidCallNumber (cn : String)
  | unrecognizedError
  | noTokenReturned
  | stoppedAtUserRequest
  | folioServerError
deriving DecidableEq, Repr

/-- Limit imposed by Google sheets on number of cells (`maxGoogleSheetCells`,
Code.js). -/
def maxGoogleSheetCells : Nat := 10000000

/-- The dictionary `itemsByBarcode` built in `itemRecords` by a `reduce` over
the response items: a JavaScript object keyed on `item.barcode`, so a later
item with the same barcode overwrites an earlier one; looking up `barcode`
therefore returns the last matching item.  Modelled as a search of the
reversed list. -/
def itemsByBarcode (items : List Item) (barcode : String) : Option Item :=
  items.reverse.find? (fun item => item.barcode == barcode)

/-- `itemRecords(barcodes, folioUrl, tenantId, token)`: one batched CQL query
for a list of barcodes.  The FOLIO response is modelled by the oracle
`db : String → Option Item`; the response body's `items` field is the set of
matching records, i.e. `barcodes.filterMap db`, and `totalRecords` is its
length.  With a nonzero `totalRecords` the function returns a list 1-1 with
the input barcodes, substituting a barcode-only placeholder for barcodes not
found; with zero it returns the empty list. -/
def itemRecords (barcodes : List String) (db : String → Option Item) : List Item :=
  let items := barcodes.filterMap db
  if items.length > 0 then
    barcodes.map (fun barcode =>
      match itemsByBarcode items barcode with
      | some item => item
      | none => placeholderRecord barcode)
  else
    []

/-- `batchedList(input, sliceSize)`: splits a list into consecutive slices of
at most `sliceSize` elements.  The source's `while` loop does not terminate
when `sliceSize = 0` and the input is non-empty (it is only ever called with
`sliceSize = 50`); the model returns `[]` in that out-of-contract case, and
every theorem about it assumes `0 < sliceSize`. -/
def batchedList (input : List α) (sliceSize : Nat) : List (List α) :=
  if input.isEmpty ∨ sliceSize = 0 then []
  else input.take sliceSize :: batchedList (input.drop sliceSize) sliceSize
termination_by input.length
decreasing_by
  rename_i h
  rw [not_or] at h
  have h1 : input ≠ [] := fun he => h.1 (by simp [he])
  have h2 : 0 < sliceSize := Nat.pos_of_ne_zero h.2
  simp only [List.length_drop]
  cases input with
  | nil => exact absurd rfl h1
  | cons a l => simp; omega

/-- One iteration of the `barcodeBatches.forEach` loop in `lookUpBarcodes`,
at the record level: if `itemRecords` came back empty the loop substitutes
one barcode-only row per barcode of the batch (`batch.map(barcode =>
[barcode, ...emptyValues])`); otherwise it uses the returned records. -/
def lookUpBarcodesBatch (batch : List String) (db : String → Option Item) : List Item :=
  let records := itemRecords batch db
  if records.length = 0 then batch.map placeholderRecord else records

/-- The full result-record sequence produced by `lookUpBarcodes`: the input
barcodes are split with `batchedList` (the source uses slice size 50) and the
per-batch results are written consecutively into the sheet. -/
def lookUpBarcodesRecords (barcodes : List String) (sliceSize : Nat)
    (db : String → Option Item) : List Item :=
  (batchedList barcodes sliceSize).flatMap (fun batch => lookUpBarcodesBatch batch db)

/-- Specification-side resolver: what one barcode should map to — the server
record when the barcode is found, the barcode-only placeholder when not. -/
def resolveBarcode (db : String → Option Item) (barcode : String) : Item :=
  match db barcode with
  | some item => item
  | none => placeholderRecord barcode

/-- `findItemWithEffectiveShelvingOrder(itemList, cn)`: iterates over the item
list and returns the first truthy (non-empty) `effectiveShelvingOrder` value;
if none exists it calls `quit` ("Cannot search using call number ..."), which
throws. -/
def findItemWithEffectiveShelvingOrder : List Item → String → Except BoffoError String
  | [], cn => .error (.noShelvingOrder cn)
  | item :: rest, cn =>
    if item.effectiveShelvingOrder ≠ "" then .ok item.effectiveShelvingOrder
    else findItemWithEffectiveShelvingOrder rest cn

/-- Loop body of `getRecordsForQuery`: `for (let offset = 0; offset <=
totalRecords; offset += 100)` fetch `makeQuery(100, offset)`; a response with
no `items` field triggers `quit('Failed to get complete set of records', …)`.
The response to `makeQuery(limit, offset)` is modelled by the oracle
`pages limit offset : Option (List Item)`, `none` standing for a body without
an `items` list. -/
def getRecordsForQueryAux (pages : Nat → Nat → Option (List Item))
    (totalRecords offset : Nat) (records : List Item) : Except BoffoError (List Item) :=
  if offset ≤ totalRecords then
    match pages 100 offset with
    | some items => getRecordsForQueryAux pages totalRecords (offset + 100) (records ++ items)
    | none => .error .incompleteRecordSet
  else
    .ok records
termination_by totalRecords + 1 - offset
decreasing_by omega

/-- `getRecordsForQuery(makeQuery, totalRecords, tenantId, token)`: iterates in
steps of 100 from offset 0 while `offset <= totalRecords`, accumulating the
`items` of each page. -/
def getRecordsForQuery (pages : Nat → Nat → Option (List Item))
    (totalRecords : Nat) : Except BoffoError (List Item) :=
  getRecordsForQueryAux pages totalRecords 0 []

/-- Specification-side description of what a complete `getRecordsForQuery` run
accumulates: the concatenation, in offset order (0, 100, 200, …, while
`offset ≤ totalRecords`), of each page's items. -/
def pagesFrom (pages : Nat → Nat → Option (List Item)) (totalRecords offset : Nat) :
    List Item :=
  if offset ≤ totalRecords then
    ((pages 100 offset).getD []) ++ pagesFrom pages totalRecords (offset + 100)
  else
    []
termination_by totalRecords + 1 - offset
decreasing_by omega

/-- `sortByShelvingOrder(records)`: sorts the records by their
`effectiveShelvingOrder` field (the source compares with `localeCompare`;
the model uses code-point string order, which no verified claim depends on). -/
def sortByShelvingOrder (records : List Item) : List Item :=
  records.mergeSort (fun r1 r2 => r1.effectiveShelvingOrder ≤ r2.effectiveShelvingOrder)

/-- Tail of `showItemsForCallNumberRange` once a boundary pair with a nonzero
record count has been found: the capacity check against
`Math.trunc(maxGoogleSheetCells/numColumns) - 1` (abort via `quit` when the
expected total exceeds it), then the paged download and the client-side sort.
`count eso1 eso2` models `fetchJSON(makeRangeQuery(eso1, eso2)).totalRecords`
and `pages eso1 eso2 limit offset` models the `items` of
`fetchJSON(makeRangeQuery(eso1, eso2, limit, offset))`. -/
def proceedWithRange (numColumns : Nat) (count : String → String → Nat)
    (pages : String → String → Nat → Nat → Option (List Item))
    (eso1 eso2 : String) : Except BoffoError (List Item) :=
  let expected := count eso1 eso2
  let maxRows := maxGoogleSheetCells / numColumns - 1
  if expected > maxRows then .error .capacityExceeded
  else (getRecordsForQuery (pages eso1 eso2) expected).map sortByShelvingOrder

/-- `showItemsForCallNumberRange(firstCN, lastCN, locationId)` from the point
where the two per-call-number item lists have been fetched:
`firstRaw`/`lastRaw` are the results of `getItemsForCN` for the two bounds
(the second is reversed before use), the boundary shelving orders are
extracted, the range query is counted, and on a zero count the boundary roles
are swapped (the in-place `reverse()`s restore `lastRaw`'s original order and
reverse `firstRaw`) and the count is retried once before
`quit('Could not find any items for this call number range', …)`. -/
def showItemsForCallNumberRange (firstRaw lastRaw : List Item) (firstCN lastCN : String)
    (numColumns : Nat) (count : String → String → Nat)
    (pages : String → String → Nat → Nat → Option (List Item)) :
    Except BoffoError (List Item) := do
  let firstItemList := firstRaw
  let lastItemList := lastRaw.reverse
  let firstESO ← findItemWithEffectiveShelvingOrder firstItemList firstCN
  let lastESO ← findItemWithEffectiveShelvingOrder lastItemList lastCN
  if 0 < count firstESO lastESO then
    proceedWithRange numColumns count pages firstESO lastESO
  else
    let firstItemList2 := lastItemList.reverse
    let lastItemList2 := firstItemList.reverse
    let firstESO2 ← findItemWithEffectiveShelvingOrder firstItemList2 lastCN
    let lastESO2 ← findItemWithEffectiveShelvingOrder lastItemList2 firstCN
    if 0 < count firstESO2 lastESO2 then
      proceedWithRange numColumns count pages firstESO2 lastESO2
    else
      .error (.noSuchRange firstCN lastCN)

/-- `[A-Z]` with the `i` flag: an ASCII letter. -/
def isAsciiLetter (c : Char) : Bool :=
  ('A' ≤ c && c ≤ 'Z') || ('a' ≤ c && c ≤ 'z')

/-- `[0-9]`: an ASCII digit. -/
def isDigitChar (c : Char) : Bool :=
  '0' ≤ c && c ≤ '9'

/-- `\s`: a whitespace character (space, tab, newline, carriage return, …). -/
def isSpaceChar (c : Char) : Bool :=
  c.isWhitespace

/-- The rewrite shared by `getItemsForCN` and `makeCallNumberVariations`
("Remove any space between the initial letter(s) and the first number"),
driven by `splitClassRe = /^(?<letters>[A-Z]+)\s+(?<numbers>[0-9]+)(?<other>[^0-9])/i`:
when the string starts with letters, then whitespace, then digits, then one
further non-digit character, the whitespace is deleted (the rest of the call
number, starting at that non-digit character, is kept).  When the regex does
not match — in particular when nothing follows the digits — the string is
returned unchanged. -/
def splitClassCollapse (cn : List Char) : List Char :=
  let letters := cn.takeWhile isAsciiLetter
  let rest1 := cn.dropWhile isAsciiLetter
  let spaces := rest1.takeWhile isSpaceChar
  let rest2 := rest1.dropWhile isSpaceChar
  let numbers := rest2.takeWhile isDigitChar
  let rest3 := rest2.dropWhile isDigitChar
  if letters.isEmpty || spaces.isEmpty || numbers.isEmpty || rest3.isEmpty then cn
  else letters ++ numbers ++ rest3

/-- Test of `classNumberRe = /^[a-z]{1,3}[0-9]+(\.[0-9]+)?/i` ("Class numbers
must start with 1-3 letters followed by 1+ digits"): with backtracking, the
regex matches exactly when the leading run of letters has length 1 to 3 and
the character right after it is a digit. -/
def validClassNumber (cn : List Char) : Bool :=
  let letters := cn.takeWhile isAsciiLetter
  let rest := cn.dropWhile isAsciiLetter
  1 ≤ letters.length && letters.length ≤ 3 &&
    (match rest with
     | c :: _ => isDigitChar c
     | [] => false)

/-- A match of `dotLetterRe = /\.[A-Z][0-9]+[^a-z0-9]/i` anchored at the head
of the string: a period, one letter, one or more digits, then one character
that is neither a letter nor a digit.  Returns the number of digits matched
(the full match then has length `digits + 3`). -/
def dotLetterMatchDigits (s : List Char) : Option Nat :=
  match s with
  | '.' :: c :: rest =>
    if isAsciiLetter c && !(rest.takeWhile isDigitChar).isEmpty then
      match rest.dropWhile isDigitChar with
      | d :: _ =>
        if isAsciiLetter d || isDigitChar d then none
        else some (rest.takeWhile isDigitChar).length
      | [] => none
    else none
  | _ => none

/-- The match indices found by the `while ((match = dotLetterRe.exec(cn)))`
loop with the global flag: scan left to right, record each match position,
and resume scanning after the matched text (whose length is `k + 3` for `k`
matched digits). -/
def dotLetterIndices (s : List Char) (i : Nat) : List Nat :=
  match s with
  | [] => []
  | c :: rest =>
    match dotLetterMatchDigits (c :: rest) with
    | some k => i :: dotLetterIndices ((c :: rest).drop (k + 3)) (i + (k + 3))
    | none => dotLetterIndices rest (i + 1)
termination_by s.length
decreasing_by
  · simp only [List.length_drop, List.length_cons]
    omega
  · simp

/-- JavaScript `String.prototype.trim`: remove whitespace from both ends. -/
def trimChars (s : List Char) : List Char :=
  ((s.dropWhile isSpaceChar).reverse.dropWhile isSpaceChar).reverse

/-- Candidate construction in `makeCallNumberVariations`: for each match index
of `dotLetterRe`, with `front = cn.slice(0, index).trim()` and
`tail = cn.slice(index).trim()`, push `front + tail` and `front + ' ' + tail`. -/
def dotLetterCandidates (cn : List Char) : List (List Char) :=
  (dotLetterIndices cn 0).flatMap (fun index =>
    let front := trimChars (cn.take index)
    let tail := trimChars (cn.drop index)
    [front ++ tail, front ++ ' ' :: tail])

/-- `makeCallNumberVariations(givenCN)`: collapse the space after the leading
letter class, `quit('Invalid call number', …)` when the collapsed string does
not start with 1-3 letters followed by a digit, and otherwise return the list
of space-toggled cutter variants. -/
def makeCallNumberVariations (givenCN : List Char) : Except BoffoError (List (List Char)) :=
  let cn := splitClassCollapse givenCN
  if validClassNumber cn then .ok (dotLetterCandidates cn)
  else .error (.invalidCallNumber (String.mk givenCN))

/-- The `for (const candidate of …)` loop of `getSampleItemsForCN`: try each
candidate in order and return the first response with a nonzero
`totalRecords`; when no candidate succeeds the function falls through to its
final `return []`.  `resp cn` models the `items` of the exact-match query for
`cn` (with `totalRecords = (resp cn).length`). -/
def tryCandidates (candidates : List (List Char)) (resp : List Char → List Item) : List Item :=
  match candidates with
  | [] => []
  | c :: rest => if (resp c).length > 0 then resp c else tryCandidates rest resp

/-- `getSampleItemsForCN(cn, locationId)`: exact-match query first; on zero
results, if the call number contains a space or a period, generate variants
with `makeCallNumberVariations` (whose `quit` aborts the operation) and try
them in order; otherwise `quit('Call number not found', …)`. -/
def getSampleItemsForCN (cn : List Char) (resp : List Char → List Item) :
    Except BoffoError (List Item) :=
  let results := resp cn
  if results.length > 0 then .ok results
  else if cn.any (fun c => c == ' ' || c == '.') then
    match makeCallNumberVariations cn with
    | .ok candidates => .ok (tryCandidates candidates resp)
    | .error e => .error e
  else
    .error (.callNumberNotFound (String.mk cn))

/-- Scanner for `cn.replace(/\s+\.(?! )/g, ' *')` in `getItemsForCN`:
`pending` is the whitespace run accumulated so far.  A period ending a
non-empty run and not followed by a space character replaces run-plus-period
with `" *"` (scanning resumes after the period); any other character flushes
the pending run unchanged.  This run-accumulator formulation is equivalent to
the left-to-right global-regex scan: a match of `\s+\.(?! )` can only start
at the beginning of a maximal whitespace run. -/
def replaceSpaceDotAux (pending : List Char) : List Char → List Char
  | [] => pending
  | c :: rest =>
    if isSpaceChar c then replaceSpaceDotAux (pending ++ [c]) rest
    else if c == '.' && !pending.isEmpty && rest.head? != some ' ' then
      ' ' :: '*' :: replaceSpaceDotAux [] rest
    else pending ++ c :: replaceSpaceDotAux [] rest

/-- `cn.replace(/\s+\.(?! )/g, ' *')`: each maximal whitespace run followed
by a period that is not itself followed by a space character is replaced,
together with the period, by `" *"`. -/
def replaceSpaceDot (s : List Char) : List Char :=
  replaceSpaceDotAux [] s

/-- Scanner for `cn.replace(/\s+(?=[a-z])/gi, ' *')` in `getItemsForCN`:
`pending` is the whitespace run accumulated so far.  A letter ending a
non-empty run turns the run into `" *"` (the letter, only looked ahead at by
the regex, is kept and scanning resumes at it); any other character flushes
the run unchanged. -/
def replaceSpaceBeforeLetterAux (pending : List Char) : List Char → List Char
  | [] => pending
  | c :: rest =>
    if isSpaceChar c then replaceSpaceBeforeLetterAux (pending ++ [c]) rest
    else if !pending.isEmpty && isAsciiLetter c then
      ' ' :: '*' :: c :: replaceSpaceBeforeLetterAux [] rest
    else pending ++ c :: replaceSpaceBeforeLetterAux [] rest

/-- `cn.replace(/\s+(?=[a-z])/gi, ' *')`: each maximal whitespace run
followed by a letter is replaced by `" *"`. -/
def replaceSpaceBeforeLetter (s : List Char) : List Char :=
  replaceSpaceBeforeLetterAux [] s

/-- `cn.replace(/(?<=[0-9])\.(?=[a-z])/gi, '*.')` in `getItemsForCN`: a period
with a digit right before it and a letter right after it is replaced by
`"*."`. `prev` is the character preceding the scan position. -/
def replaceDotAfterDigit (prev : Option Char) : List Char → List Char
  | [] => []
  | c :: rest =>
    if c == '.' &&
        (match prev with | some p => isDigitChar p | none => false) &&
        (match rest with | d :: _ => isAsciiLetter d | [] => false) then
      '*' :: '.' :: replaceDotAfterDigit (some '.') rest
    else
      c :: replaceDotAfterDigit (some c) rest

/-- The three wildcard substitutions of `getItemsForCN`, applied in source
order ("Insert wildcards in strategic places"). -/
def wildcardCN (cn : List Char) : List Char :=
  replaceDotAfterDigit none (replaceSpaceBeforeLetter (replaceSpaceDot cn))

/-- The call-number string that `getItemsForCN` puts into its query
`effectiveCallNumberComponents.callNumber=="${cn}"`: the raw input after the
`splitClassRe` whitespace collapse and the wildcard substitutions. -/
def getItemsForCNQueryCN (cn : List Char) : List Char :=
  wildcardCN (splitClassCollapse cn)

/-- `getItemsForCN(cn, locationId)`: rewrite the call number, count the
matching records with a preliminary query, then either page through the full
result set with `getRecordsForQuery` or `quit('Could not find an item with
call number …')`.  `count q` models the `totalRecords` of the preliminary
query for the processed call number `q`, and `pages q limit offset` the
`items` of the paged query. -/
def getItemsForCN (cn : List Char) (count : List Char → Nat)
    (pages : List Char → Nat → Nat → Option (List Item)) : Except BoffoError (List Item) :=
  let qcn := getItemsForCNQueryCN cn
  if 0 < count qcn then getRecordsForQuery (pages qcn) (count qcn)
  else .error (.callNumberNotFound (String.mk cn))

/-- `startsWithChars s p`: does `s` start with the character sequence `p`
(JavaScript `String.prototype.startsWith`)? -/
def startsWithChars : List Char → List Char → Bool
  | _, [] => true
  | [], _ :: _ => false
  | c :: cs, p :: ps => c == p && startsWithChars cs ps

/-- `validTenantId(tenant_id)` from Code.js:
`tenant_id && !tenant_id.startsWith('https')` — truthiness of the string
(non-empty) and not starting with the prefix `https`. -/
def validTenantId (tenant_id : List Char) : Bool :=
  !tenant_id.isEmpty && !startsWithChars tenant_id "https".toList

/-- A FOLIO record field descriptor (`Field(name, enabled, required,
getValue)`); the `getValue` extractor plays no part in the selection
save/restore logic verified here and is omitted. -/
structure Field where
  name : String
  enabled : Bool
  required : Bool
deriving DecidableEq, Repr

instance : Inhabited Field := ⟨⟨"", false, false⟩⟩

/-- The canonical `fields` array (names, default enabled flags, required
flags), in source order. -/
def boffoFields : List Field := [
  ⟨"Barcode",                        true,  true⟩,
  ⟨"Title",                          true,  false⟩,
  ⟨"Call number",                    false, false⟩,
  ⟨"Circulation notes",              false, false⟩,
  ⟨"Contributor names",              false, false⟩,
  ⟨"Discovery suppress",             false, false⟩,
  ⟨"Effective call number",          true,  false⟩,
  ⟨"Effective call number prefix",   false, false⟩,
  ⟨"Effective call number suffix",   false, false⟩,
  ⟨"Effective call number type ID",  false, false⟩,
  ⟨"Effective location",             true,  false⟩,
  ⟨"Effective location ID",          false, false⟩,
  ⟨"Effective shelving order",       false, false⟩,
  ⟨"Electronic access",              false, false⟩,
  ⟨"Enumeration",                    true,  false⟩,
  ⟨"Former IDs",                     false, false⟩,
  ⟨"HRID",                           false, false⟩,
  ⟨"Holdings record ID",             false, false⟩,
  ⟨"Is bound with",                  false, false⟩,
  ⟨"Item level call number",         false, false⟩,
  ⟨"Material type",                  true,  false⟩,
  ⟨"Material type ID",               false, false⟩,
  ⟨"Metadata: created by user ID",   false, false⟩,
  ⟨"Metadata: created date",         false, false⟩,
  ⟨"Metadata: updated by user ID",   false, false⟩,
  ⟨"Metadata: updated date",         false, false⟩,
  ⟨"Notes",                          false, false⟩,
  ⟨"Permanent loan type",            false, false⟩,
  ⟨"Permanent loan type ID",         false, false⟩,
  ⟨"Permanent location",             false, false⟩,
  ⟨"Permanent location ID",          false, false⟩,
  ⟨"Purchase order line identifier", false, false⟩,
  ⟨"Statistical code IDs",           false, false⟩,
  ⟨"Status",                         true,  false⟩,
  ⟨"Status date",                    false, false⟩,
  ⟨"Tags",                           false, false⟩,
  ⟨"Temporary location",             false, false⟩,
  ⟨"Temporary location ID",          false, false⟩,
  ⟨"UUID",                           true,  false⟩,
  ⟨"Year caption",                   false, false⟩]

/-- The mutation loop of `saveFieldSelections`:
`fields.forEach((field, index) => fields[index].enabled = selections[index])`.
When the selections array is shorter, `selections[index]` is `undefined`,
which is falsy, so the flag becomes disabled. -/
def applyFieldSelections : List Field → List Bool → List Field
  | [], _ => []
  | f :: fs, [] => { f with enabled := false } :: applyFieldSelections fs []
  | f :: fs, b :: bs => { f with enabled := b } :: applyFieldSelections fs bs

/-- `saveFieldSelections(selections)`: update the in-memory `fields` flags,
then persist `JSON.stringify(fields)` under the user property `boffo_fields`.
The persisted JSON is modelled by the `(name, enabled)` projection, the only
parts `restoreFieldSelections` reads back. -/
def saveFieldSelections (fs : List Field) (selections : List Bool) :
    List Field × List (String × Bool) :=
  let fs' := applyFieldSelections fs selections
  (fs', fs'.map (fun f => (f.name, f.enabled)))

/-- The merge loop of `restoreFieldSelections`: at each index the stored
entry's name is compared with the canonical field's name and the stored
`enabled` flag is copied only on a match ("Only restore those whose names
match").  When the canonical list is longer than the stored one,
`storedFields[index].name` dereferences `undefined` and throws a `TypeError`,
modelled by `none`. -/
def mergeStored : List Field → List (String × Bool) → Option (List Field)
  | [], _ => some []
  | _ :: _, [] => none
  | f :: fs, (n, e) :: rest =>
    let f' := if f.name = n then { f with enabled := e } else f
    match mergeStored fs rest with
    | some fs' => some (f' :: fs')
    | none => none

/-- `restoreFieldSelections()`: a no-op when no `boffo_fields` user property
is stored, otherwise the index-aligned name-checked merge of the stored flags
into the canonical list. -/
def restoreFieldSelections (fs : List Field) (stored : Option (List (String × Bool))) :
    Option (List Field) :=
  match stored with
  | none => some fs
  | some st => mergeStored fs st

/-- The three user properties touched by `saveFolioInfo`; `none` models an
unset property. -/
structure UserProps where
  boffo_folio_api_token : Option (List Char)
  boffo_folio_url : Option (List Char)
  boffo_folio_tenant_id : Option (List Char)
deriving DecidableEq, Repr

/-- `stripTrailingSlash(url)`: drop a final `/` if present. -/
def stripTrailingSlash (url : List Char) : List Char :=
  if url.getLast? == some '/' then url.dropLast else url

/-- `haveCredentials()`: all three user properties are set to non-empty
strings (`isNonempty` of a missing property's `null` is false). -/
def haveCredentials (props : UserProps) : Bool :=
  !(props.boffo_folio_url.getD []).isEmpty &&
    !(props.boffo_folio_tenant_id.getD []).isEmpty &&
    !(props.boffo_folio_api_token.getD []).isEmpty

/-- Outcome of the `UrlFetchApp.fetch` login call in `saveFolioInfo`:
either the call threw, or it returned an HTTP status code together with the
optional `x-okapi-token` response header. -/
inductive LoginAttempt where
  | threw
  | response (httpCode : Nat) (tokenHeader : Option (List Char))
deriving DecidableEq, Repr

/-- `saveFolioInfo(url, tenantId, user, password, callAfterSuccess)`, viewed
as a transformer of the stored user properties.  Outcome cases follow the
source: a thrown fetch and HTTP ≥ 500 `quit`; a status < 300 with an
`x-okapi-token` header stores the token, the slash-stripped URL and the
tenant id; a status < 300 without the header `quit`s; a 3xx/4xx status asks
the user whether to retry — declining `quit`s, accepting re-enters the
credentials dialog (a separate invocation, which performs no writes of its
own here) and returns `haveCredentials()`. -/
def saveFolioInfo (props : UserProps) (url tenantId user password : List Char)
    (login : LoginAttempt) (retryYes : Bool) : UserProps × Except BoffoError Bool :=
  let url' := stripTrailingSlash url
  match login with
  | .threw => (props, .error .unrecognizedError)
  | .response httpCode tokenHeader =>
    if httpCode < 300 then
      match tokenHeader with
      | some token =>
        ({ boffo_folio_api_token := some token,
           boffo_folio_url := some url',
           boffo_folio_tenant_id := some tenantId }, .ok true)
      | none => (props, .error .noTokenReturned)
    else if httpCode < 500 then
      if retryYes then (props, .ok (haveCredentials props))
      else (props, .error .stoppedAtUserRequest)
    else (props, .error .folioServerError)

/-! ## Helper lemmas -/

theorem isSpaceChar_not_letter {c : Char} (h : isSpaceChar c = true) :
    isAsciiLetter c = false := by
  simp [isSpaceChar, Char.isWhitespace] at h
  rcases h with ((rfl | rfl) | rfl) | rfl <;> decide

theorem isSpaceChar_not_digit {c : Char} (h : isSpaceChar c = true) :
    isDigitChar c = false := by
  simp [isSpaceChar, Char.isWhitespace] at h
  rcases h with ((rfl | rfl) | rfl) | rfl <;> decide

theorem isDigitChar_not_letter {c : Char} (h : isDigitChar c = true) :
    isAsciiLetter c = false := by
  simp [isDigitChar, isAsciiLetter, Char.le_def, UInt32.le_def, BitVec.le_def] at *
  omega

theorem isDigitChar_not_space {c : Char} (h : isDigitChar c = true) :
    isSpaceChar c = false := by
  by_contra hs
  rw [Bool.not_eq_false] at hs
  simp [isSpaceChar, Char.isWhitespace] at hs
  rcases hs with ((rfl | rfl) | rfl) | rfl <;> simp [isDigitChar] at h

theorem takeWhile_append_cons {p : Char → Bool} {y : Char} {ys : List Char} :
    ∀ {xs : List Char}, (∀ x ∈ xs, p x = true) → p y = false →
      (xs ++ y :: ys).takeWhile p = xs
  | [], _, hy => by simp [List.takeWhile_cons, hy]
  | x :: xs, hall, hy => by
    have hx : p x = true := hall x (by simp)
    simp only [List.cons_append, List.takeWhile_cons_of_pos hx]
    rw [takeWhile_append_cons (fun a ha => hall a (by simp [ha])) hy]

theorem dropWhile_append_cons {p : Char → Bool} {y : Char} {ys : List Char} :
    ∀ {xs : List Char}, (∀ x ∈ xs, p x = true) → p y = false →
      (xs ++ y :: ys).dropWhile p = y :: ys
  | [], _, hy => by simp [List.dropWhile_cons, hy]
  | x :: xs, hall, hy => by
    have hx : p x = true := hall x (by simp)
    simp only [List.cons_append, List.dropWhile_cons_of_pos hx]
    exact dropWhile_append_cons (fun a ha => hall a (by simp [ha])) hy

theorem startsWithChars_iff (s p : List Char) :
    startsWithChars s p = true ↔ ∃ t, s = p ++ t := by
  induction p generalizing s with
  | nil => simp [startsWithChars]
  | cons a ps ih =>
    cases s with
    | nil => simp [startsWithChars]
    | cons c cs =>
      simp only [startsWithChars, Bool.and_eq_true, beq_iff_eq, ih, List.cons_append,
        List.cons.injEq]
      constructor
      · rintro ⟨rfl, t, rfl⟩
        exact ⟨t, rfl, rfl⟩
      · rintro ⟨t, rfl, rfl⟩
        exact ⟨rfl, t, rfl⟩

/-! ## Claim theorems -/

/-- C9 counterexample: the claim says the tenant-id validator returns `true`
iff the id is non-empty, contains at least one digit, and does not look like
a URL; but on the digit-free, non-URL-looking id `"abc"` the code returns
`true`, so the "contains at least one digit" conjunct is not implemented. -/
theorem validTenantId_no_digit_check :
    validTenantId "abc".toList = true ∧ "abc".toList.any isDigitChar = false := by
  decide

/-- C9 (amended): `validTenantId` returns `true` iff the id is non-empty and
does not start with the character sequence `https`. -/
theorem validTenantId_iff (tenant_id : List Char) :
    validTenantId tenant_id = true ↔
      tenant_id ≠ [] ∧ ¬ ∃ t, tenant_id = "https".toList ++ t := by
  constructor
  · intro h
    unfold validTenantId at h
    rw [Bool.and_eq_true] at h
    obtain ⟨h1, h2⟩ := h
    constructor
    · intro he
      subst he
      simp at h1
    · rintro ⟨t, ht⟩
      have hx : startsWithChars tenant_id "https".toList = true :=
        (startsWithChars_iff _ _).2 ⟨t, ht⟩
      rw [hx] at h2
      simp at h2
  · rintro ⟨h1, h2⟩
    unfold validTenantId
    rw [Bool.and_eq_true]
    refine ⟨?_, ?_⟩
    · cases tenant_id with
      | nil => exact absurd rfl h1
      | cons a l => rfl
    · have hx : startsWithChars tenant_id "https".toList = false := by
        cases hb : startsWithChars tenant_id "https".toList with
        | false => rfl
        | true => exact absurd ((startsWithChars_iff _ _).1 hb) h2
      rw [hx]
      rfl

/-- C4: `findItemWithEffectiveShelvingOrder` fails with the documented fatal
error when no item of the list carries a non-empty `effectiveShelvingOrder`
(and in particular never returns an empty string), and otherwise returns the
first non-empty `effectiveShelvingOrder` value in list order. -/
theorem findItemWithEffectiveShelvingOrder_spec (items : List Item) (cn : String) :
    ((∀ item ∈ items, item.effectiveShelvingOrder = "") →
       findItemWithEffectiveShelvingOrder items cn = .error (.noShelvingOrder cn)) ∧
    (∀ eso, findItemWithEffectiveShelvingOrder items cn = .ok eso → eso ≠ "") ∧
    (∀ i, i < items.length →
       (items.getD i default).effectiveShelvingOrder ≠ "" →
       (∀ j, j < i → (items.getD j default).effectiveShelvingOrder = "") →
       findItemWithEffectiveShelvingOrder items cn
         = .ok (items.getD i default).effectiveShelvingOrder) := by
  induction items with
  | nil =>
    refine ⟨fun _ => rfl, ?_, ?_⟩
    · intro eso h
      simp [findItemWithEffectiveShelvingOrder] at h
    · intro i hi
      simp at hi
  | cons item rest ih =>
    refine ⟨?_, ?_, ?_⟩
    · intro hall
      have h0 : item.effectiveShelvingOrder = "" := hall item (by simp)
      simp only [findItemWithEffectiveShelvingOrder, h0, ne_eq, not_true_eq_false,
        if_false]
      exact ih.1 fun it hit => hall it (by simp [hit])
    · intro eso h
      by_cases h0 : item.effectiveShelvingOrder = ""
      · simp only [findItemWithEffectiveShelvingOrder, h0, ne_eq, not_true_eq_false,
          if_false] at h
        exact ih.2.1 eso h
      · simp only [findItemWithEffectiveShelvingOrder, h0, ne_eq, not_false_eq_true,
          if_true, Except.ok.injEq] at h
        exact h ▸ h0
    · intro i hi hne hfirst
      cases i with
      | zero =>
        simp only [List.getD_cons_zero] at hne
        simp [findItemWithEffectiveShelvingOrder, hne]
      | succ i =>
        have h0 : item.effectiveShelvingOrder = "" := by
          have := hfirst 0 (Nat.succ_pos i)
          simpa using this
        simp only [findItemWithEffectiveShelvingOrder, h0, ne_eq, not_true_eq_false,
          if_false, List.getD_cons_succ]
        exact ih.2.2 i (by simpa using hi) (by simpa using hne)
          (fun j hj => by simpa using hfirst (j + 1) (by omega))

/-- Witness for C4 at concrete inputs: a list whose records all lack the
shelving order yields the fatal error, and a list whose second record is the
first with a non-empty shelving order yields that value. -/
theorem findItemWithEffectiveShelvingOrder_spec_witness :
    findItemWithEffectiveShelvingOrder [⟨"b1", some "id1", ""⟩] "Z9"
      = .error (.noShelvingOrder "Z9") ∧
    findItemWithEffectiveShelvingOrder [⟨"b1", some "id1", ""⟩, ⟨"b2", some "id2", "QA 76"⟩] "QA76"
      = .ok "QA 76" := by
  constructor
  · exact (findItemWithEffectiveShelvingOrder_spec [⟨"b1", some "id1", ""⟩] "Z9").1
      (by decide)
  · exact (findItemWithEffectiveShelvingOrder_spec
      [⟨"b1", some "id1", ""⟩, ⟨"b2", some "id2", "QA 76"⟩] "QA76").2.2 1
      (by decide) (by decide) (by decide)

/-- C10: `saveFolioInfo` leaves all three stored credential properties
untouched in every failure branch (fetch threw; HTTP ≥ 500; HTTP 3xx/4xx with
the user declining to retry; HTTP < 300 without an `x-okapi-token` header),
writes them exactly in the branch where login returned a status below 300
with a token header, and its result never depends on the password value. -/
theorem saveFolioInfo_write_policy (props : UserProps)
    (url tenantId user password : List Char) (login : LoginAttempt) (retryYes : Bool) :
    (login = .threw →
       saveFolioInfo props url tenantId user password login retryYes
         = (props, .error .unrecognizedError)) ∧
    (∀ httpCode tokenHeader, login = .response httpCode tokenHeader →
       (500 ≤ httpCode →
          saveFolioInfo props url tenantId user password login retryYes
            = (props, .error .folioServerError)) ∧
       (300 ≤ httpCode → httpCode < 500 → retryYes = false →
          saveFolioInfo props url tenantId user password login retryYes
            = (props, .error .stoppedAtUserRequest)) ∧
       (httpCode < 300 → tokenHeader = none →
          saveFolioInfo props url tenantId user password login retryYes
            = (props, .error .noTokenReturned)) ∧
       (∀ token, httpCode < 300 → tokenHeader = some token →
          saveFolioInfo props url tenantId user password login retryYes
            = ({ boffo_folio_api_token := some token,
                 boffo_folio_url := some (stripTrailingSlash url),
                 boffo_folio_tenant_id := some tenantId }, .ok true))) ∧
    (∀ password2,
       saveFolioInfo props url tenantId user password login retryYes
         = saveFolioInfo props url tenantId user password2 login retryYes) := by
  refine ⟨?_, ?_, fun _ => rfl⟩
  · rintro rfl
    rfl
  · rintro httpCode tokenHeader rfl
    refine ⟨?_, ?_, ?_, ?_⟩
    · intro h5
      simp [saveFolioInfo, Nat.not_lt_of_le (by omega : 300 ≤ httpCode),
        Nat.not_lt_of_le h5]
    · intro h3 h5 hr
      subst hr
      simp [saveFolioInfo, Nat.not_lt_of_le h3, h5]
    · rintro hlt rfl
      simp [saveFolioInfo, hlt]
    · rintro token hlt rfl
      simp [saveFolioInfo, hlt]

/-- Witness for C10 at concrete inputs: a 500 response leaves the (empty)
property store untouched, and a 201 response carrying a token header stores
the token, the slash-stripped URL and the tenant id. -/
theorem saveFolioInfo_write_policy_witness :
    saveFolioInfo ⟨none, none, none⟩ "https://folio.example.org/".toList "lib7".toList
        "user1".toList "pw".toList (.response 500 none) false
      = (⟨none, none, none⟩, .error .folioServerError) ∧
    saveFolioInfo ⟨none, none, none⟩ "https://folio.example.org/".toList "lib7".toList
        "user1".toList "pw".toList (.response 201 (some "tok".toList)) false
      = (⟨some "tok".toList, some "https://folio.example.org".toList,
          some "lib7".toList⟩, .ok true) := by
  constructor
  · exact (((saveFolioInfo_write_policy ⟨none, none, none⟩
      "https://folio.example.org/".toList "lib7".toList "user1".toList "pw".toList
      (.response 500 none) false).2.1 500 none rfl).1 (by omega))
  · have h := (((saveFolioInfo_write_policy ⟨none, none, none⟩
      "https://folio.example.org/".toList "lib7".toList "user1".toList "pw".toList
      (.response 201 (some "tok".toList)) false).2.1 201 (some "tok".toList)
      rfl).2.2.2 "tok".toList (by omega) rfl)
    rw [h]
    rfl

theorem getRecordsForQueryAux_error (pages : Nat → Nat → Option (List Item))
    (totalRecords : Nat) :
    ∀ fuel offset records, totalRecords + 1 - offset ≤ fuel →
      (∃ k, offset + 100 * k ≤ totalRecords ∧ pages 100 (offset + 100 * k) = none) →
      getRecordsForQueryAux pages totalRecords offset records
        = .error .incompleteRecordSet := by
  intro fuel
  induction fuel with
  | zero =>
    rintro offset records hf ⟨k, hk, _⟩
    omega
  | succ fuel ih =>
    rintro offset records hf ⟨k, hk, hnone⟩
    have hoff : offset ≤ totalRecords := by omega
    rw [getRecordsForQueryAux, if_pos hoff]
    cases hp : pages 100 offset with
    | none => simp
    | some items =>
      simp only
      cases k with
      | zero =>
        rw [Nat.mul_zero, Nat.add_zero, hp] at hnone
        cases hnone
      | succ k =>
        refine ih (offset + 100) (records ++ items) (by omega) ⟨k, by omega, ?_⟩
        have harith : offset + 100 + 100 * k = offset + 100 * (k + 1) := by ring
        rw [harith]
        exact hnone

theorem getRecordsForQueryAux_ok (pages : Nat → Nat → Option (List Item))
    (totalRecords : Nat) :
    ∀ fuel offset records, totalRecords + 1 - offset ≤ fuel →
      (∀ k, offset + 100 * k ≤ totalRecords → (pages 100 (offset + 100 * k)).isSome = true) →
      getRecordsForQueryAux pages totalRecords offset records
        = .ok (records ++ pagesFrom pages totalRecords offset) := by
  intro fuel
  induction fuel with
  | zero =>
    intro offset records hf hall
    have hoff : ¬ offset ≤ totalRecords := by omega
    rw [getRecordsForQueryAux, if_neg hoff, pagesFrom, if_neg hoff, List.append_nil]
  | succ fuel ih =>
    intro offset records hf hall
    by_cases hoff : offset ≤ totalRecords
    · have h0 := hall 0 (by simpa using hoff)
      rw [Nat.mul_zero, Nat.add_zero] at h0
      cases hp : pages 100 offset with
      | none => rw [hp] at h0; cases h0
      | some items =>
        rw [getRecordsForQueryAux, if_pos hoff]
        simp only [hp]
        rw [ih (offset + 100) (records ++ items) (by omega) (fun k hk => by
          have harith : offset + 100 + 100 * k = offset + 100 * (k + 1) := by ring
          rw [harith] at hk ⊢
          exact hall (k + 1) hk)]
        conv_rhs => rw [pagesFrom, if_pos hoff, hp]
        simp

    · rw [getRecordsForQueryAux, if_neg hoff, pagesFrom, if_neg hoff, List.append_nil]

/-- C5: a page response without an `items` list at any offset of the loop
(multiples of 100 up to `totalRecords`) makes `getRecordsForQuery` terminate
with the fatal failed-to-get-complete-set error rather than returning the
partial accumulation; when every page carries an `items` list the result is
the concatenation of all fetched pages in offset order. -/
theorem getRecordsForQuery_spec (pages : Nat → Nat → Option (List Item))
    (totalRecords : Nat) :
    ((∃ k, 100 * k ≤ totalRecords ∧ pages 100 (100 * k) = none) →
       getRecordsForQuery pages totalRecords = .error .incompleteRecordSet) ∧
    ((∀ k, 100 * k ≤ totalRecords → (pages 100 (100 * k)).isSome = true) →
       getRecordsForQuery pages totalRecords = .ok (pagesFrom pages totalRecords 0)) := by
  constructor
  · rintro ⟨k, hk, hn⟩
    exact getRecordsForQueryAux_error pages totalRecords (totalRecords + 1) 0 []
      (by omega) ⟨k, by simpa using hk, by simpa using hn⟩
  · intro hall
    have h := getRecordsForQueryAux_ok pages totalRecords (totalRecords + 1) 0 [] (by omega)
      (fun k hk => by simpa using hall k (by simpa using hk))
    simpa using h

/-- Witness for C5 at concrete inputs: with `totalRecords = 250`, a missing
`items` list at offset 100 aborts with the fatal error, while complete pages
of one item each produce the three pages (offsets 0, 100, 200) concatenated
in order. -/
theorem getRecordsForQuery_spec_witness :
    getRecordsForQuery
        (fun _ offset => if offset = 100 then none else some [⟨"b1", some "id1", "A1"⟩]) 250
      = .error .incompleteRecordSet ∧
    getRecordsForQuery (fun _ _ => some [⟨"b1", some "id1", "A1"⟩]) 250
      = .ok [⟨"b1", some "id1", "A1"⟩, ⟨"b1", some "id1", "A1"⟩,
             ⟨"b1", some "id1", "A1"⟩] := by
  constructor
  · exact (getRecordsForQuery_spec
      (fun _ offset => if offset = 100 then none else some [⟨"b1", some "id1", "A1"⟩])
      250).1 ⟨1, by omega, rfl⟩
  · have h := (getRecordsForQuery_spec (fun _ _ => some [⟨"b1", some "id1", "A1"⟩]) 250).2
      (fun k hk => rfl)
    rw [h]
    simp [pagesFrom]

/-- C2: when the initial shelving-order range query reports zero records,
`showItemsForCallNumberRange` swaps the boundary roles (the first boundary is
re-derived from the last call number's items, the last boundary from the
reversed first call number's items) and retries exactly once: a second zero
count fails with the descriptive no-such-range error, a nonzero count
proceeds with the swapped boundaries.  The `pages` oracle is universally
quantified in both conclusions: no page fetch influences the retry
decision. -/
theorem showItemsForCallNumberRange_swap_retry (firstRaw lastRaw : List Item)
    (firstCN lastCN : String) (numColumns : Nat) (count : String → String → Nat)
    (e1 e2 e1s e2s : String)
    (hE1 : findItemWithEffectiveShelvingOrder firstRaw firstCN = .ok e1)
    (hE2 : findItemWithEffectiveShelvingOrder lastRaw.reverse lastCN = .ok e2)
    (hE1s : findItemWithEffectiveShelvingOrder lastRaw lastCN = .ok e1s)
    (hE2s : findItemWithEffectiveShelvingOrder firstRaw.reverse firstCN = .ok e2s)
    (hfwd : count e1 e2 = 0) :
    (count e1s e2s = 0 →
       ∀ pages, showItemsForCallNumberRange firstRaw lastRaw firstCN lastCN
           numColumns count pages = .error (.noSuchRange firstCN lastCN)) ∧
    (0 < count e1s e2s →
       ∀ pages, showItemsForCallNumberRange firstRaw lastRaw firstCN lastCN
           numColumns count pages
         = proceedWithRange numColumns count pages e1s e2s) := by
  constructor
  · intro hswap pages
    simp only [showItemsForCallNumberRange, hE1, hE2, List.reverse_reverse, hE1s, hE2s,
      bind, Except.bind]
    rw [hfwd]
    simp only [Nat.lt_irrefl, if_false]
    rw [hswap]
    simp only [Nat.lt_irrefl, if_false]
  · intro hswap pages
    simp only [showItemsForCallNumberRange, hE1, hE2, List.reverse_reverse, hE1s, hE2s,
      bind, Except.bind]
    rw [hfwd]
    simp only [Nat.lt_irrefl, if_false]
    rw [if_pos hswap]

/-- Witness for C2 at concrete inputs: reversed bounds `"Z999"`/`"A100"` with
a count oracle that is zero in the given order and nonzero after the swap
proceed with the swapped shelving-order boundaries, while an all-zero count
oracle produces the no-such-range error. -/
theorem showItemsForCallNumberRange_swap_retry_witness :
    showItemsForCallNumberRange [⟨"z", some "iz", "Z 999"⟩] [⟨"a", some "ia", "A 100"⟩]
        "Z999" "A100" 7 (fun _ _ => 0) (fun _ _ _ _ => some [])
      = .error (.noSuchRange "Z999" "A100") ∧
    showItemsForCallNumberRange [⟨"z", some "iz", "Z 999"⟩] [⟨"a", some "ia", "A 100"⟩]
        "Z999" "A100" 7 (fun e1 _ => if e1 = "A 100" then 5 else 0)
        (fun _ _ _ _ => some [])
      = proceedWithRange 7 (fun e1 _ => if e1 = "A 100" then 5 else 0)
          (fun _ _ _ _ => some []) "A 100" "Z 999" := by
  constructor
  · exact (showItemsForCallNumberRange_swap_retry [⟨"z", some "iz", "Z 999"⟩]
      [⟨"a", some "ia", "A 100"⟩] "Z999" "A100" 7 (fun _ _ => 0)
      "Z 999" "A 100" "A 100" "Z 999" rfl rfl rfl rfl rfl).1 rfl _
  · exact (showItemsForCallNumberRange_swap_retry [⟨"z", some "iz", "Z 999"⟩]
      [⟨"a", some "ia", "A 100"⟩] "Z999" "A100" 7
      (fun e1 _ => if e1 = "A 100" then 5 else 0)
      "Z 999" "A 100" "A 100" "Z 999" rfl rfl rfl rfl (by decide)).2 (by decide) _

/-- C6: whichever boundary order yields the reported total, when that total
exceeds the capacity bound `maxGoogleSheetCells / numColumns - 1` (maximum
cell count divided by the number of enabled columns, minus the header row),
the range search aborts with the capacity error — for every `pages` oracle,
so before any record page is fetched and before anything is written.
`0 < numColumns` holds in the source because the barcode column is always
enabled (and with `numColumns = 0` the JavaScript quotient would be
`Infinity` rather than the natural-number `0`). -/
theorem showItemsForCallNumberRange_capacity (firstRaw lastRaw : List Item)
    (firstCN lastCN : String) (numColumns : Nat) (count : String → String → Nat)
    (e1 e2 e1s e2s : String)
    (hE1 : findItemWithEffectiveShelvingOrder firstRaw firstCN = .ok e1)
    (hE2 : findItemWithEffectiveShelvingOrder lastRaw.reverse lastCN = .ok e2)
    (hE1s : findItemWithEffectiveShelvingOrder lastRaw lastCN = .ok e1s)
    (hE2s : findItemWithEffectiveShelvingOrder firstRaw.reverse firstCN = .ok e2s)
    (hcols : 0 < numColumns) :
    (0 < count e1 e2 → maxGoogleSheetCells / numColumns - 1 < count e1 e2 →
       ∀ pages, showItemsForCallNumberRange firstRaw lastRaw firstCN lastCN
           numColumns count pages = .error .capacityExceeded) ∧
    (count e1 e2 = 0 → 0 < count e1s e2s →
       maxGoogleSheetCells / numColumns - 1 < count e1s e2s →
       ∀ pages, showItemsForCallNumberRange firstRaw lastRaw firstCN lastCN
           numColumns count pages = .error .capacityExceeded) := by
  constructor
  · intro hpos hcap pages
    simp only [showItemsForCallNumberRange, hE1, hE2, List.reverse_reverse, hE1s, hE2s,
      bind, Except.bind]
    rw [if_pos hpos]
    unfold proceedWithRange
    rw [if_pos (by omega)]
  · intro hfwd hpos hcap pages
    simp only [showItemsForCallNumberRange, hE1, hE2, List.reverse_reverse, hE1s, hE2s,
      bind, Except.bind]
    rw [hfwd]
    simp only [Nat.lt_irrefl, if_false]
    rw [if_pos hpos]
    unfold proceedWithRange
    rw [if_pos (by omega)]

/-- Witness for C6 at concrete inputs: with 7 enabled columns the bound is
`10000000 / 7 - 1 = 1428570`, and a reported total of 2000000 aborts with the
capacity error in both the forward and the swapped branch. -/
theorem showItemsForCallNumberRange_capacity_witness :
    showItemsForCallNumberRange [⟨"z", some "iz", "Z 999"⟩] [⟨"a", some "ia", "A 100"⟩]
        "Z999" "A100" 7 (fun _ _ => 2000000) (fun _ _ _ _ => some [])
      = .error .capacityExceeded ∧
    showItemsForCallNumberRange [⟨"z", some "iz", "Z 999"⟩] [⟨"a", some "ia", "A 100"⟩]
        "Z999" "A100" 7 (fun e1 _ => if e1 = "A 100" then 2000000 else 0)
        (fun _ _ _ _ => some [])
      = .error .capacityExceeded := by
  constructor
  · exact (showItemsForCallNumberRange_capacity [⟨"z", some "iz", "Z 999"⟩]
      [⟨"a", some "ia", "A 100"⟩] "Z999" "A100" 7 (fun _ _ => 2000000)
      "Z 999" "A 100" "A 100" "Z 999" rfl rfl rfl rfl (by omega)).1
      (by omega) (by decide) _
  · exact (showItemsForCallNumberRange_capacity [⟨"z", some "iz", "Z 999"⟩]
      [⟨"a", some "ia", "A 100"⟩] "Z999" "A100" 7
      (fun e1 _ => if e1 = "A 100" then 2000000 else 0)
      "Z 999" "A 100" "A 100" "Z 999" rfl rfl rfl rfl (by omega)).2
      (by decide) (by decide) (by decide) _

theorem flatMap_eq_map_of_batches {α β : Type} (g : α → β) :
    ∀ (batches : List (List α)) (f : List α → List β),
      (∀ b ∈ batches, f b = b.map g) →
      batches.flatMap f = (batches.flatMap id).map g := by
  intro batches
  induction batches with
  | nil => intro f _; rfl
  | cons b bs ih =>
    intro f h
    simp only [List.flatMap_cons, h b (by simp), id, List.map_append]
    rw [ih f (fun x hx => h x (by simp [hx]))]

theorem batchedList_flatten {α : Type} (sliceSize : Nat) (hs : 0 < sliceSize) :
    ∀ fuel (l : List α), l.length ≤ fuel →
      (batchedList l sliceSize).flatMap id = l := by
  intro fuel
  induction fuel with
  | zero =>
    intro l hl
    have hnil : l = [] := by
      cases l with
      | nil => rfl
      | cons a t => simp at hl
    subst hnil
    rw [batchedList]
    simp
  | succ fuel ih =>
    intro l hl
    by_cases hnil : l = []
    · subst hnil
      rw [batchedList]
      simp
    · have hpos : 0 < l.length := List.length_pos.mpr hnil
      rw [batchedList, if_neg (by simp [hnil, Nat.pos_iff_ne_zero.mp hs])]
      simp only [List.flatMap_cons, id]
      rw [ih (l.drop sliceSize) (by simp only [List.length_drop]; omega)]
      exact List.take_append_drop sliceSize l

theorem batchedList_batch_le {α : Type} (sliceSize : Nat) (hs : 0 < sliceSize) :
    ∀ fuel (l : List α), l.length ≤ fuel →
      ∀ batch ∈ batchedList l sliceSize, batch.length ≤ sliceSize := by
  intro fuel
  induction fuel with
  | zero =>
    intro l hl batch hbatch
    have hnil : l = [] := by
      cases l with
      | nil => rfl
      | cons a t => simp at hl
    subst hnil
    rw [batchedList] at hbatch
    simp at hbatch
  | succ fuel ih =>
    intro l hl batch hbatch
    by_cases hnil : l = []
    · subst hnil
      rw [batchedList] at hbatch
      simp at hbatch
    · have hpos : 0 < l.length := List.length_pos.mpr hnil
      rw [batchedList, if_neg (by simp [hnil, Nat.pos_iff_ne_zero.mp hs])] at hbatch
      rcases List.mem_cons.mp hbatch with rfl | hmem
      · exact List.length_take_le _ _
      · exact ih (l.drop sliceSize) (by simp only [List.length_drop]; omega) batch hmem

theorem itemsByBarcode_found (batch : List String) (db : String → Option Item)
    (hdb : ∀ b item, db b = some item → item.barcode = b)
    {b : String} {item : Item} (hb : b ∈ batch) (hfound : db b = some item) :
    itemsByBarcode (batch.filterMap db) b = some item := by
  unfold itemsByBarcode
  have hmem : item ∈ (batch.filterMap db).reverse := by
    rw [List.mem_reverse]
    exact List.mem_filterMap.mpr ⟨b, hb, hfound⟩
  have hsome : ((batch.filterMap db).reverse.find? (fun it => it.barcode == b)).isSome := by
    rw [List.find?_isSome]
    exact ⟨item, hmem, by simp [hdb b item hfound]⟩
  obtain ⟨x, hx⟩ := Option.isSome_iff_exists.mp hsome
  rw [hx]
  have hxmem : x ∈ batch.filterMap db := List.mem_reverse.mp (List.mem_of_find?_eq_some hx)
  have hxbar : x.barcode = b := by simpa using List.find?_some hx
  obtain ⟨b', hb', hdb'⟩ := List.mem_filterMap.mp hxmem
  have hbb : b' = b := by rw [← hxbar, hdb b' x hdb']
  subst hbb
  rw [hdb'] at hfound
  exact hfound

theorem itemsByBarcode_notfound (batch : List String) (db : String → Option Item)
    (hdb : ∀ b item, db b = some item → item.barcode = b)
    {b : String} (hnone : db b = none) :
    itemsByBarcode (batch.filterMap db) b = none := by
  unfold itemsByBarcode
  rw [List.find?_eq_none]
  intro x hx hpx
  have hxmem := List.mem_reverse.mp hx
  obtain ⟨b', hb', hdb'⟩ := List.mem_filterMap.mp hxmem
  have hxbar : x.barcode = b' := hdb b' x hdb'
  have hbb : b' = b := by
    rw [← hxbar]
    simpa using hpx
  subst hbb
  rw [hdb'] at hnone
  cases hnone

theorem lookUpBarcodesBatch_eq_map (batch : List String) (db : String → Option Item)
    (hdb : ∀ b item, db b = some item → item.barcode = b) :
    lookUpBarcodesBatch batch db = batch.map (resolveBarcode db) := by
  by_cases hlen : (batch.filterMap db).length > 0
  · have hIR : itemRecords batch db = batch.map (resolveBarcode db) := by
      unfold itemRecords
      rw [if_pos hlen]
      apply List.map_congr_left
      intro b hb
      cases hfound : db b with
      | some item =>
        rw [itemsByBarcode_found batch db hdb hb hfound]
        simp [resolveBarcode, hfound]
      | none =>
        rw [itemsByBarcode_notfound batch db hdb hfound]
        simp [resolveBarcode, hfound]
    have hbne : batch ≠ [] := by
      intro hbn
      subst hbn
      simp at hlen
    unfold lookUpBarcodesBatch
    rw [hIR, if_neg (by simpa using hbne)]
  · have hIR : itemRecords batch db = [] := by
      unfold itemRecords
      rw [if_neg hlen]
    have hallnone : ∀ b ∈ batch, db b = none := by
      have hnil : batch.filterMap db = [] := by
        cases hfm : batch.filterMap db with
        | nil => rfl
        | cons x t => rw [hfm] at hlen; simp at hlen
      exact List.filterMap_eq_nil_iff.mp hnil
    unfold lookUpBarcodesBatch
    rw [hIR]
    simp only [List.length_nil, eq_self_iff_true, if_true]
    apply List.map_congr_left
    intro b hb
    simp [resolveBarcode, hallnone b hb]

/-- C1: for a non-empty barcode list, the batched lookup (`lookUpBarcodes`
driving `itemRecords` over `batchedList` batches, each of at most
`sliceSize` barcodes — the source uses 50) yields one result record per input
barcode, in input order: the i-th result's barcode is the i-th input barcode,
and a barcode the server does not return is rendered as the barcode-only
placeholder, whatever slice size (and hence batch split) is used.  The
hypothesis `hdb` states that the FOLIO response to `barcode==b` queries
returns records carrying that barcode. -/
theorem lookUpBarcodes_batched_lookup (barcodes : List String) (sliceSize : Nat)
    (db : String → Option Item)
    (hdb : ∀ b item, db b = some item → item.barcode = b)
    (hslice : 0 < sliceSize) (hne : barcodes ≠ []) :
    (lookUpBarcodesRecords barcodes sliceSize db).length = barcodes.length ∧
    (∀ batch ∈ batchedList barcodes sliceSize, batch.length ≤ sliceSize) ∧
    (∀ i, i < barcodes.length →
       ((lookUpBarcodesRecords barcodes sliceSize db).getD i default).barcode
         = barcodes.getD i "" ∧
       (db (barcodes.getD i "") = none →
         (lookUpBarcodesRecords barcodes sliceSize db).getD i default
           = placeholderRecord (barcodes.getD i ""))) := by
  have hmain : lookUpBarcodesRecords barcodes sliceSize db
      = barcodes.map (resolveBarcode db) := by
    unfold lookUpBarcodesRecords
    rw [flatMap_eq_map_of_batches (resolveBarcode db) _ _
      (fun b _ => lookUpBarcodesBatch_eq_map b db hdb)]
    rw [batchedList_flatten sliceSize hslice barcodes.length barcodes (Nat.le_refl _)]
  refine ⟨by rw [hmain]; simp,
    batchedList_batch_le sliceSize hslice barcodes.length barcodes (Nat.le_refl _), ?_⟩
  intro i hi
  have hgd : (lookUpBarcodesRecords barcodes sliceSize db).getD i default
      = resolveBarcode db (barcodes.getD i "") := by
    rw [hmain, List.getD_eq_getElem?_getD, List.getElem?_map,
      List.getElem?_eq_getElem hi]
    simp [List.getD_eq_getElem?_getD, List.getElem?_eq_getElem hi]
  refine ⟨?_, ?_⟩
  · rw [hgd]
    cases hf : db (barcodes.getD i "") with
    | some item =>
      unfold resolveBarcode
      rw [hf]
      exact hdb _ _ hf
    | none =>
      unfold resolveBarcode
      rw [hf]
      rfl
  · intro hnone
    rw [hgd]
    unfold resolveBarcode
    rw [hnone]

/-- Witness for C1 at concrete inputs: three barcodes split into batches of
two, with only the first barcode known to the server, give three result
records and a barcode-only placeholder in the second position. -/
theorem lookUpBarcodes_batched_lookup_witness :
    (lookUpBarcodesRecords ["b1", "b2", "b3"] 2
        (fun b => if b = "b1" then some ⟨"b1", some "id1", "A1"⟩ else none)).length = 3 ∧
    (lookUpBarcodesRecords ["b1", "b2", "b3"] 2
        (fun b => if b = "b1" then some ⟨"b1", some "id1", "A1"⟩ else none)).getD 1 default
      = placeholderRecord "b2" := by
  have hdb : ∀ b item,
      (fun b => if b = "b1" then some (⟨"b1", some "id1", "A1"⟩ : Item) else none) b
        = some item → item.barcode = b := by
    intro b item h
    dsimp only at h
    by_cases hb : b = "b1"
    · subst hb
      rw [if_pos rfl] at h
      cases h
      rfl
    · rw [if_neg hb] at h
      cases h
  constructor
  · exact (lookUpBarcodes_batched_lookup ["b1", "b2", "b3"] 2
      (fun b => if b = "b1" then some ⟨"b1", some "id1", "A1"⟩ else none)
      hdb (by decide) (by decide)).1
  · exact ((lookUpBarcodes_batched_lookup ["b1", "b2", "b3"] 2
      (fun b => if b = "b1" then some ⟨"b1", some "id1", "A1"⟩ else none)
      hdb (by decide) (by decide)).2.2 1 (by decide)).2 (by decide)

theorem applyFieldSelections_map_name :
    ∀ (fs : List Field) (sel : List Bool),
      (applyFieldSelections fs sel).map Field.name = fs.map Field.name := by
  intro fs
  induction fs with
  | nil => intro sel; cases sel <;> rfl
  | cons f fs ih =>
    intro sel
    cases sel with
    | nil => simp [applyFieldSelections, ih []]
    | cons b bs => simp [applyFieldSelections, ih bs]

theorem applyFieldSelections_enabled :
    ∀ (fs : List Field) (sel : List Bool), sel.length = fs.length →
      (applyFieldSelections fs sel).map Field.enabled = sel := by
  intro fs
  induction fs with
  | nil =>
    intro sel hlen
    cases sel with
    | nil => rfl
    | cons b bs => simp at hlen
  | cons f fs ih =>
    intro sel hlen
    cases sel with
    | nil => simp at hlen
    | cons b bs => simp [applyFieldSelections, ih bs (by simpa using hlen)]

theorem mergeStored_applied :
    ∀ (fs : List Field) (sel : List Bool),
      mergeStored fs ((applyFieldSelections fs sel).map (fun f => (f.name, f.enabled)))
        = some (applyFieldSelections fs sel) := by
  intro fs
  induction fs with
  | nil => intro sel; cases sel <;> rfl
  | cons f fs ih =>
    intro sel
    cases sel with
    | nil =>
      show mergeStored (f :: fs)
        (({ f with enabled := false } :: applyFieldSelections fs []).map
          (fun f => (f.name, f.enabled))) = _
      simp only [List.map_cons]
      unfold mergeStored
      rw [ih []]
      simp [applyFieldSelections]
    | cons b bs =>
      show mergeStored (f :: fs)
        (({ f with enabled := b } :: applyFieldSelections fs bs).map
          (fun f => (f.name, f.enabled))) = _
      simp only [List.map_cons]
      unfold mergeStored
      rw [ih bs]
      simp [applyFieldSelections]

theorem mergeStored_spec :
    ∀ (fs : List Field) (st : List (String × Bool)), fs.length ≤ st.length →
      ∃ fs', mergeStored fs st = some fs' ∧ fs'.length = fs.length ∧
        ∀ i, i < fs.length →
          fs'.getD i default
            = (if (fs.getD i default).name = (st.getD i ("", false)).1
               then { fs.getD i default with enabled := (st.getD i ("", false)).2 }
               else fs.getD i default) := by
  intro fs
  induction fs with
  | nil =>
    intro st _
    exact ⟨[], rfl, rfl, fun i hi => by simp at hi⟩
  | cons f fs ih =>
    intro st hlen
    cases st with
    | nil => simp at hlen
    | cons p rest =>
      obtain ⟨n, e⟩ := p
      obtain ⟨fs', hm, hl, hspec⟩ := ih rest (by simpa using hlen)
      refine ⟨(if f.name = n then { f with enabled := e } else f) :: fs', ?_, ?_, ?_⟩
      · unfold mergeStored
        rw [hm]
      · simpa using hl
      · intro i hi
        cases i with
        | zero => simp
        | succ i =>
          simp only [List.getD_cons_succ]
          exact hspec i (by simpa using hi)

/-- C8: saving a full-length boolean selection vector over the canonical field
list and restoring it after a simulated reload (flags back at their defaults)
reproduces the saved enabled flag for every field — within one canonical list
every stored name matches, so every flag is restored; and in general the merge
copies a stored flag only where the stored entry at the same index carries the
canonical field's name, silently keeping the default (no error) for any
stored name that does not match, provided the stored list is at least as long
as the canonical list. -/
theorem fieldSelections_round_trip (sel : List Bool)
    (hlen : sel.length = boffoFields.length) :
    (restoreFieldSelections boffoFields (some (saveFieldSelections boffoFields sel).2)
       = some (applyFieldSelections boffoFields sel) ∧
     (applyFieldSelections boffoFields sel).map Field.enabled = sel ∧
     (applyFieldSelections boffoFields sel).map Field.name
       = boffoFields.map Field.name) ∧
    (∀ (fs : List Field) (st : List (String × Bool)), fs.length ≤ st.length →
       ∃ fs', mergeStored fs st = some fs' ∧ fs'.length = fs.length ∧
         ∀ i, i < fs.length →
           fs'.getD i default
             = (if (fs.getD i default).name = (st.getD i ("", false)).1
                then { fs.getD i default with enabled := (st.getD i ("", false)).2 }
                else fs.getD i default)) := by
  refine ⟨⟨?_, applyFieldSelections_enabled boffoFields sel hlen, ?_⟩,
    mergeStored_spec⟩
  · show mergeStored boffoFields
      ((applyFieldSelections boffoFields sel).map (fun f => (f.name, f.enabled)))
      = some (applyFieldSelections boffoFields sel)
    exact mergeStored_applied boffoFields sel
  · exact applyFieldSelections_map_name boffoFields sel

/-- Witness for C8 at a concrete input: the all-true selection vector over
the 40 canonical fields survives the save / simulated-reload / restore cycle
with every enabled flag reproduced. -/
theorem fieldSelections_round_trip_witness :
    restoreFieldSelections boffoFields
        (some (saveFieldSelections boffoFields (List.replicate 40 true)).2)
      = some (applyFieldSelections boffoFields (List.replicate 40 true)) ∧
    (applyFieldSelections boffoFields (List.replicate 40 true)).map Field.enabled
      = List.replicate 40 true := by
  have h := fieldSelections_round_trip (List.replicate 40 true) (by decide)
  exact ⟨h.1.1, h.1.2.1⟩

/-- C3 (code bug): `dotLetterRe = /\.[A-Z][0-9]+[^a-z0-9]/i` demands one more
non-alphanumeric character after the cutter digits, so a cutter at the end of
the call number produces no variant.  For the failing input `"GV199.F3"`
(whose exact-match query returns zero records), `makeCallNumberVariations`
returns no candidates — although the function's own documentation lists
`GV199.F3 -> GV199.F3, GV199 .F3` — and the search returns the empty item
list even when the server holds items under the documented variant
`"GV199 .F3"`, instead of trying that candidate. -/
theorem getSampleItemsForCN_misses_final_cutter :
    makeCallNumberVariations "GV199.F3".toList = .ok [] ∧
    getSampleItemsForCN "GV199.F3".toList
        (fun q => if q = "GV199 .F3".toList then [⟨"b9", some "id9", "GV199 F3"⟩] else [])
      = .ok [] := by
  constructor
  · simp [makeCallNumberVariations, splitClassCollapse, validClassNumber,
      dotLetterCandidates, dotLetterIndices, dotLetterMatchDigits, isAsciiLetter,
      isDigitChar, isSpaceChar, String.toList, Char.isWhitespace]
  · simp [getSampleItemsForCN, makeCallNumberVariations, splitClassCollapse,
      validClassNumber, dotLetterCandidates, dotLetterIndices, dotLetterMatchDigits,
      tryCandidates, isAsciiLetter, isDigitChar, isSpaceChar, String.toList,
      Char.isWhitespace]

/-- C7 counterexample: the claim says every raw input with whitespace between
the leading letter class and the first numeric component is rewritten by
deleting that whitespace before the initial query; but `splitClassRe` also
requires a non-digit character after the numbers, so for `"GV 199"` the
call-number string used in the query keeps the space instead of becoming
`"GV199"`. -/
theorem getItemsForCNQueryCN_keeps_class_space :
    getItemsForCNQueryCN "GV 199".toList = "GV 199".toList ∧
    "GV 199".toList ≠ "GV199".toList := by
  constructor
  · decide
  · decide

/-- C7 (amended): for raw input of the form letters, whitespace, digits, and
then a non-digit character followed by anything, `getItemsForCN` first
deletes the whitespace between the letter class and the numeric component
(`"GV 199.F3"` becomes `"GV199.F3"`), and the call-number term of its initial
query — built from the collapsed string by the wildcard substitutions — is
the same as for the already-collapsed input. -/
theorem getItemsForCN_collapse (letters ws digits rest : List Char) (c : Char)
    (hlne : letters ≠ []) (hlA : ∀ x ∈ letters, isAsciiLetter x = true)
    (hwne : ws ≠ []) (hwS : ∀ x ∈ ws, isSpaceChar x = true)
    (hdne : digits ≠ []) (hdD : ∀ x ∈ digits, isDigitChar x = true)
    (hc : isDigitChar c = false) :
    splitClassCollapse (letters ++ (ws ++ (digits ++ c :: rest)))
      = letters ++ (digits ++ c :: rest) ∧
    getItemsForCNQueryCN (letters ++ (ws ++ (digits ++ c :: rest)))
      = getItemsForCNQueryCN (letters ++ (digits ++ c :: rest)) := by
  obtain ⟨w, ws', rfl⟩ : ∃ w ws', ws = w :: ws' := by
    cases ws with
    | nil => exact absurd rfl hwne
    | cons w ws' => exact ⟨w, ws', rfl⟩
  obtain ⟨d, ds, rfl⟩ : ∃ d ds, digits = d :: ds := by
    cases digits with
    | nil => exact absurd rfl hdne
    | cons d ds => exact ⟨d, ds, rfl⟩
  have hwletter : isAsciiLetter w = false := isSpaceChar_not_letter (hwS w (by simp))
  have hdspace : isSpaceChar d = false := isDigitChar_not_space (hdD d (by simp))
  have hdletter : isAsciiLetter d = false := isDigitChar_not_letter (hdD d (by simp))
  have hshape1 : letters ++ ((w :: ws') ++ ((d :: ds) ++ c :: rest))
      = letters ++ w :: (ws' ++ ((d :: ds) ++ c :: rest)) := by simp
  have h1 : (letters ++ ((w :: ws') ++ ((d :: ds) ++ c :: rest))).takeWhile isAsciiLetter
      = letters := by
    rw [hshape1]
    exact takeWhile_append_cons hlA hwletter
  have h2 : (letters ++ ((w :: ws') ++ ((d :: ds) ++ c :: rest))).dropWhile isAsciiLetter
      = (w :: ws') ++ ((d :: ds) ++ c :: rest) := by
    rw [hshape1]
    exact dropWhile_append_cons hlA hwletter
  have hshape2 : (w :: ws') ++ ((d :: ds) ++ c :: rest)
      = (w :: ws') ++ d :: (ds ++ c :: rest) := by simp
  have h3 : ((w :: ws') ++ ((d :: ds) ++ c :: rest)).takeWhile isSpaceChar
      = w :: ws' := by
    rw [hshape2]
    exact takeWhile_append_cons hwS hdspace
  have h4 : ((w :: ws') ++ ((d :: ds) ++ c :: rest)).dropWhile isSpaceChar
      = (d :: ds) ++ c :: rest := by
    rw [hshape2]
    exact dropWhile_append_cons hwS hdspace
  have h5 : ((d :: ds) ++ c :: rest).takeWhile isDigitChar = d :: ds :=
    takeWhile_append_cons hdD hc
  have h6 : ((d :: ds) ++ c :: rest).dropWhile isDigitChar = c :: rest :=
    dropWhile_append_cons hdD hc
  have hcol : splitClassCollapse (letters ++ ((w :: ws') ++ ((d :: ds) ++ c :: rest)))
      = letters ++ ((d :: ds) ++ c :: rest) := by
    simp only [splitClassCollapse, h1, h2, h3, h4, h5, h6]
    rw [if_neg (by simp [hlne])]
    simp
  have h1' : (letters ++ ((d :: ds) ++ c :: rest)).takeWhile isAsciiLetter = letters := by
    have : letters ++ ((d :: ds) ++ c :: rest) = letters ++ d :: (ds ++ c :: rest) := by simp
    rw [this]
    exact takeWhile_append_cons hlA hdletter
  have h2' : (letters ++ ((d :: ds) ++ c :: rest)).dropWhile isAsciiLetter
      = (d :: ds) ++ c :: rest := by
    have : letters ++ ((d :: ds) ++ c :: rest) = letters ++ d :: (ds ++ c :: rest) := by simp
    rw [this]
    exact dropWhile_append_cons hlA hdletter
  have h3' : ((d :: ds) ++ c :: rest).takeWhile isSpaceChar = [] := by
    simp [List.takeWhile_cons, hdspace]
  have hcol' : splitClassCollapse (letters ++ ((d :: ds) ++ c :: rest))
      = letters ++ ((d :: ds) ++ c :: rest) := by
    simp only [splitClassCollapse, h1', h2', h3']
    rw [if_pos (by simp)]
  refine ⟨hcol, ?_⟩
  unfold getItemsForCNQueryCN
  rw [hcol, hcol']

/-- Witness for C7's amended statement at the concrete input `"GV 199.F3"`:
the collapse yields `"GV199.F3"` and the query term equals the one built for
the already-collapsed input. -/
theorem getItemsForCN_collapse_witness :
    splitClassCollapse ("GV".toList ++ (" ".toList ++ ("199".toList ++ '.' :: "F3".toList)))
      = "GV".toList ++ ("199".toList ++ '.' :: "F3".toList) ∧
    getItemsForCNQueryCN ("GV".toList ++ (" ".toList ++ ("199".toList ++ '.' :: "F3".toList)))
      = getItemsForCNQueryCN ("GV".toList ++ ("199".toList ++ '.' :: "F3".toList)) := by
  exact getItemsForCN_collapse "GV".toList " ".toList "199".toList "F3".toList '.'
    (by decide) (by decide) (by decide) (by decide) (by decide) (by decide) (by decide)

end Boffo
